import Mathlib
/-!
Verification of the lsimons-auto repository against its natural-language
specification.  Python strings are modelled as `List Char` (`Str`) where
character-level behaviour matters, and as `String` for record fields.
External effects (filesystem, git, tmux, subprocesses) are modelled by
passing their observable results as explicit parameters.
-/



/-- Python strings at character level. -/
abbrev Str := List Char

/-- Characters treated as whitespace by Python `str.strip()` (ASCII range,
which covers all inputs produced and consumed by this program). -/
def pyIsSpace (c : Char) : Bool :=
  c == ' ' || c == '\t' || c == '\n' || c == '\r' ||
    c == Char.ofNat 11 || c == Char.ofNat 12

/-- The two quote characters stripped around keys and values by the TOML
helpers (the argument of the second strip in the parser). -/
def pyIsQuote (c : Char) : Bool := c == '"' || c == Char.ofNat 39

/-- Python `str.lstrip` restricted to a character class. -/
def pyLStrip (p : Char → Bool) (l : Str) : Str := l.dropWhile p

/-- Python `str.rstrip` restricted to a character class. -/
def pyRStrip (p : Char → Bool) (l : Str) : Str := (l.reverse.dropWhile p).reverse

/-- Python `str.strip` restricted to a character class. -/
def pyStrip (p : Char → Bool) (l : Str) : Str := pyRStrip p (pyLStrip p l)

/-- ASCII lowercasing of one character, as Python `str.lower` acts on the
ASCII inputs of this program. -/
def lowerChar (c : Char) : Char :=
  if 'A' ≤ c && c ≤ 'Z' then Char.ofNat (c.toNat + 32) else c

/-- Python `str.lower` on the character-list model. -/
def lowerStr (s : Str) : Str := s.map lowerChar

/-- Python prefix test used to implement substring containment. -/
def listStarts : Str → Str → Bool
  | [], _ => true
  | _ :: _, [] => false
  | a :: as, b :: bs => a == b && listStarts as bs

/-- Python substring containment `needle in hay`. -/
def listInfixB (needle : Str) : Str → Bool
  | [] => listStarts needle []
  | c :: t => listStarts needle (c :: t) || listInfixB needle t

/-- Case-insensitive substring containment `q.lower() in s.lower()`. -/
def containsCI (q s : Str) : Bool := listInfixB (lowerStr q) (lowerStr s)

/-- Python `str.isdigit` for ASCII digit strings. -/
def pyIsDigitStr (l : Str) : Bool := !l.isEmpty && l.all Char.isDigit

/-- Python `int(...)` on a digit string. -/
def digitsToNat (l : Str) : Nat := l.foldl (fun n c => n * 10 + (c.toNat - 48)) 0

/-!
## git_sync.py: `try_fast_forward`

The five `git` queries made by `try_fast_forward` are modelled by a record of
their observable outputs (`none` models a failed command, mirroring
`get_command_output` returning `None`), plus the success flag of the final
`git merge --ff-only` invocation.
-/


structure RepoGit where
  branch : Option String
  status : Option String
  localHash : Option String
  upstreamHash : Option String
  mergeBase : Option String
  mergeOk : Bool

/-- Embedding of `try_fast_forward` from `git_sync.py`.  The first component is the
return value of the function; the second records whether `git merge --ff-only`
was invoked. -/
def try_fast_forward (g : RepoGit) (dry_run : Bool) : Bool × Bool :=
  if g.branch ≠ some "main" then (false, false)
  else
    match g.status with
    | none => (false, false)
    | some st =>
      if st ≠ "" then (false, false)
      else
        match g.localHash, g.upstreamHash with
        | some l, some r =>
          if l = r then (false, false)
          else if g.mergeBase ≠ some l then (false, false)
          else if dry_run then (true, false)
          else (g.mergeOk, true)
        | _, _ => (false, false)

/-- The fast-forward preconditions stated by the specification: on `main`,
clean working copy, both hashes resolve and differ, and the merge base
equals the local head. -/
def ffCond (g : RepoGit) : Prop :=
  g.branch = some "main" ∧ g.status = some "" ∧ g.localHash.isSome = true ∧
    g.upstreamHash.isSome = true ∧ g.localHash ≠ g.upstreamHash ∧
    g.mergeBase = g.localHash

instance (g : RepoGit) : Decidable (ffCond g) := by
  unfold ffCond; infer_instance

/-!
## worktree.py: `ensure_worktree`

The filesystem is modelled by its observable `exists` predicate; the git
side effect is reported as a `WtAction` value instead of being performed.
-/


inductive WtAction where
  /-- The existing worktree is reused: no git command runs. -/
  | noop : WtAction
  /-- The directory existed without a `.git` marker: it is removed and
  `git worktree add -b <branch>` runs. -/
  | recreate (branch : String) : WtAction
  /-- The directory did not exist: `git worktree add -b <branch>` runs. -/
  | fresh (branch : String) : WtAction

deriving DecidableEq

/-- Embedding of `ensure_worktree` from `worktree.py`; `exists?` models `Path.exists` and
`timestamp` the `datetime.now(...).strftime(...)` result used in the branch
name. -/
def ensure_worktree (exists? : String → Bool)
    (worktree_name worktrees_dir timestamp : String) : String × WtAction :=
  let worktree_path := worktrees_dir ++ "/" ++ worktree_name
  if exists? worktree_path then
    if exists? (worktree_path ++ "/.git") then (worktree_path, WtAction.noop)
    else (worktree_path, WtAction.recreate (worktree_name ++ "-" ++ timestamp))
  else (worktree_path, WtAction.fresh (worktree_name ++ "-" ++ timestamp))

/-!
## lsimons_auto.py: the dispatcher
-/



/-- Embedding of `normalize_action_name` from `lsimons_auto.py`. -/
def normalize_action_name (s : Str) : Str :=
  s.map (fun c => if c == '_' then '-' else c)

/-- The observable outcome of `subprocess.run` on the action script. -/
inductive RunOutcome where
  | exited (code : Int) : RunOutcome
  | scriptMissing : RunOutcome
  | interrupted : RunOutcome

/-- What the dispatcher does at the end of `main`. -/
inductive DispatchResult where
  | helpShown : DispatchResult
  | exit (code : Int) : DispatchResult

deriving DecidableEq

/-- The dispatch logic of `main` in `lsimons_auto.py`, given the discovered
action names, the first CLI argument and the child-process outcome. -/
def dispatch (actions : List Str) (action_input : Str) (outcome : RunOutcome) :
    DispatchResult :=
  if actions.isEmpty then .exit 1
  else if action_input == "-h".data || action_input == "--help".data then .helpShown
  else
    let action_name := normalize_action_name action_input
    if !(actions.contains action_name) then .exit 1
    else
      match outcome with
      | .exited c => .exit c
      | .scriptMissing => .exit 1
      | .interrupted => .exit 130

/-!
## session.py: the session data model and its JSON round trip

`json.dump`/`json.load` preserve the JSON value exactly for the data written
here (objects with string keys, strings, integers, booleans, null, arrays),
so serialization is modelled at the level of a JSON value tree.
-/



/-- A JSON value, as produced by `json.dump` / consumed by `json.load`. -/
inductive Json where
  | null : Json
  | bool (b : Bool) : Json
  | num (n : Int) : Json
  | str (s : String) : Json
  | arr (xs : List Json) : Json
  | obj (fields : List (String × Json)) : Json

/-- Embedding of the `AgentPane` dataclass from `session.py`. -/
structure AgentPane where
  id : String
  pane_index : Int
  command : String
  is_main : Bool
  worktree_path : Option String := none
  tmux_pane_id : Option String := none

deriving DecidableEq

/-- Embedding of the `AgentSession` dataclass from `session.py`. -/
structure AgentSession where
  session_id : String
  workspace_path : String
  repo_name : String
  org_name : String
  created_at : String
  panes : List AgentPane := []
  window_id : Option Int := none
  tmux_session_name : Option String := none

deriving DecidableEq

/-- How `asdict` serializes an `Optional[str]` field. -/
def optStrJson : Option String → Json
  | none => .null
  | some s => .str s

/-- How `asdict` serializes an `Optional[int]` field. -/
def optIntJson : Option Int → Json
  | none => .null
  | some n => .num n

/-- Serialization of an `AgentPane` by `asdict`, fields in dataclass order. -/
def paneToJson (p : AgentPane) : Json :=
  .obj [("id", .str p.id), ("pane_index", .num p.pane_index),
    ("command", .str p.command), ("is_main", .bool p.is_main),
    ("worktree_path", optStrJson p.worktree_path),
    ("tmux_pane_id", optStrJson p.tmux_pane_id)]

/-- Serialization performed by `AgentSession.save`: the value passed to `json.dump(asdict(self), f)`. -/
def sessionToJson (s : AgentSession) : Json :=
  .obj [("session_id", .str s.session_id),
    ("workspace_path", .str s.workspace_path),
    ("repo_name", .str s.repo_name), ("org_name", .str s.org_name),
    ("created_at", .str s.created_at),
    ("panes", .arr (s.panes.map paneToJson)),
    ("window_id", optIntJson s.window_id),
    ("tmux_session_name", optStrJson s.tmux_session_name)]

/-- Reading a string field out of a parsed JSON object. -/
def asStr : Option Json → Option String
  | some (.str s) => some s
  | _ => none

/-- Reading an int field out of a parsed JSON object. -/
def asInt : Option Json → Option Int
  | some (.num n) => some n
  | _ => none

/-- Reading a bool field out of a parsed JSON object. -/
def asBool : Option Json → Option Bool
  | some (.bool b) => some b
  | _ => none

/-- Reading an `Optional[str]` field: an absent key or a JSON null both give
`None`, matching the dataclass default. -/
def asOptStr : Option Json → Option (Option String)
  | none => some none
  | some .null => some none
  | some (.str s) => some (some s)
  | _ => none

/-- Reading an `Optional[int]` field. -/
def asOptInt : Option Json → Option (Option Int)
  | none => some none
  | some .null => some none
  | some (.num n) => some (some n)
  | _ => none

/-- Decoding of one pane dict by `AgentPane(**p)`, as done by
`AgentSession.load`. -/
def paneFromJson : Json → Option AgentPane
  | .obj fs =>
    match asStr (fs.lookup "id"), asInt (fs.lookup "pane_index"),
        asStr (fs.lookup "command"), asBool (fs.lookup "is_main"),
        asOptStr (fs.lookup "worktree_path"),
        asOptStr (fs.lookup "tmux_pane_id") with
    | some i, some pi, some c, some im, some wp, some tp =>
      some ⟨i, pi, c, im, wp, tp⟩
    | _, _, _, _, _, _ => none
  | _ => none

/-- Decoding of the pane list, `[AgentPane(**p) for p in data.pop("panes", [])]`: the pane
list element by element. -/
def panesFromJson : List Json → Option (List AgentPane)
  | [] => some []
  | j :: t =>
    match paneFromJson j, panesFromJson t with
    | some p, some ps => some (p :: ps)
    | _, _ => none

/-- Decoding performed by `AgentSession.load`: `data.pop("panes", [])` then `cls(**data,
panes=[AgentPane(**p) for p in ...])`. -/
def sessionFromJson : Json → Option AgentSession
  | .obj fs =>
    let panesJson := match fs.lookup "panes" with
      | some (.arr xs) => some xs
      | none => some []
      | _ => none
    match panesJson.bind panesFromJson, asStr (fs.lookup "session_id"), asStr (fs.lookup "workspace_path"), asStr (fs.lookup "repo_name"), asStr (fs.lookup "org_name"), asStr (fs.lookup "created_at"), asOptInt (fs.lookup "window_id"), asOptStr (fs.lookup "tmux_session_name") with
    | some ps, some sid, some wp, some rn, some og, some ca, some wid, some tsn => some ⟨sid, wp, rn, og, ca, ps, wid, tsn⟩
    | _, _, _, _, _, _, _, _ => none
  | _ => none

/-!
## workspace.py: `fuzzy_match_workspace`

Workspaces are `dict[str, dict[str, Path]]`; Python dict iteration order is
insertion order, so the maps are modelled as association lists.  The
`ValueError` raise sites are modelled by an error inductive carrying the
data interpolated into the message.
-/



/-- The workspace map: org name to list of (repo name, path). -/
abbrev WsMap := List (Str × List (Str × Str))

/-- The four `raise ValueError` sites of `fuzzy_match_workspace`. -/
inductive MatchError where
  | noOrg (query : Str) : MatchError
  | ambiguousOrg (query : Str) (ms : List Str) : MatchError
  | noRepo (query : Str) (org : Str) : MatchError
  | ambiguousRepo (query : Str) (ms : List Str) : MatchError

deriving DecidableEq

deriving instance DecidableEq for Except

/-- Selection of `matching[0]` from a list known to be nonempty, with an explicit fallback
for the (unreachable) empty case. -/
def headOr {α : Type} (l : List Str) (e : α) (f : Str → α) : α :=
  match l with
  | [] => e
  | x :: _ => f x

/-- Embedding of `fuzzy_match_workspace` from `workspace.py`.  The fallbacks passed to
`headOr` and `getD` are unreachable: the selected org/repo is always a
member of the corresponding map. -/
def fuzzy_match_workspace (query_org query_repo : Str) (workspaces : WsMap) :
    Except MatchError (Str × Str × Str) :=
  let matching_orgs := (workspaces.map Prod.fst).filter (containsCI query_org)
  if matching_orgs.length = 0 then .error (.noOrg query_org)
  else
    let exact_orgs := matching_orgs.filter (fun o => lowerStr o == lowerStr query_org)
    if matching_orgs.length > 1 ∧ exact_orgs.length ≠ 1 then
      .error (.ambiguousOrg query_org matching_orgs)
    else
      headOr (if matching_orgs.length > 1 then exact_orgs else matching_orgs)
        (.error (.noOrg query_org)) (fun org =>
        let repos := (workspaces.lookup org).getD []
        let matching_repos := (repos.map Prod.fst).filter (containsCI query_repo)
        if matching_repos.length = 0 then .error (.noRepo query_repo org)
        else
          let exact_repos := matching_repos.filter (fun r => lowerStr r == lowerStr query_repo)
          if matching_repos.length > 1 ∧ exact_repos.length ≠ 1 then
            .error (.ambiguousRepo query_repo matching_repos)
          else
            headOr (if matching_repos.length > 1 then exact_repos else matching_repos)
              (.error (.noRepo query_repo org)) (fun repo =>
              .ok (org, repo, (repos.lookup repo).getD [])))

/-- The candidate selection described by the (amended) specification: the
unique case-insensitive containment match, with ties broken by a unique
case-insensitive exact match. -/
def specSelect (query : Str) (cands : List Str) : Option Str :=
  match cands.filter (containsCI query) with
  | [] => none
  | [c] => some c
  | c1 :: c2 :: t =>
    match (c1 :: c2 :: t).filter (fun o => lowerStr o == lowerStr query) with
    | [e] => some e
    | _ => none

/-- The specification-level description of the whole matcher, built from
`specSelect` stage by stage. -/
def fuzzy_spec_model (query_org query_repo : Str) (workspaces : WsMap) :
    Except MatchError (Str × Str × Str) :=
  let orgCands := workspaces.map Prod.fst
  let morg := orgCands.filter (containsCI query_org)
  match specSelect query_org orgCands with
  | none =>
    if morg.isEmpty then .error (.noOrg query_org)
    else .error (.ambiguousOrg query_org morg)
  | some org =>
    let repos := (workspaces.lookup org).getD []
    let repoCands := repos.map Prod.fst
    let mrepo := repoCands.filter (containsCI query_repo)
    match specSelect query_repo repoCands with
    | none =>
      if mrepo.isEmpty then .error (.noRepo query_repo org)
      else .error (.ambiguousRepo query_repo mrepo)
    | some repo => .ok (org, repo, (repos.lookup repo).getD [])

/-!
## session.py / cli.py / layout.py: pane targeting, layout, close and kill
-/



/-- A `for i, pane in enumerate(...)` loop returning the first pane that
satisfies the predicate, with its index. -/
def enumFind (pred : AgentPane → Bool) : List AgentPane → Nat → Option (AgentPane × Nat)
  | [], _ => none
  | p :: ps, i => if pred p then some (p, i) else enumFind pred ps (i + 1)

/-- An early `return` followed by the rest of the function body: the first
result when present, the fallback otherwise. -/
def optOr {α : Type} : Option α → (Unit → Option α) → Option α
  | some x, _ => some x
  | none, f => f ()

/-- Embedding of `find_pane_by_target` from `session.py`: the `main` keyword, then a
numeric index, then a case-insensitive id-substring match. -/
def find_pane_by_target (s : AgentSession) (target : String) : Option (AgentPane × Nat) :=
  let target_lower := lowerStr target.data
  optOr (if target_lower == "main".data then
      enumFind (fun p => p.is_main) s.panes 0 else none)
    (fun _ =>
      if pyIsDigitStr target.data ∧ digitsToNat target.data < s.panes.length then
        (s.panes[digitsToNat target.data]?).map (fun p => (p, digitsToNat target.data))
      else
        enumFind (fun p => listInfixB target_lower (lowerStr p.id.data)) s.panes 0)

/-- The resolution order described by the claim: `main` (when some pane has
the main flag), else an in-range digit index, else the first pane whose id
contains the target case-insensitively. -/
def find_pane_spec (s : AgentSession) (target : String) : Option (AgentPane × Nat) :=
  if lowerStr target.data == "main".data ∧ s.panes.any (fun p => p.is_main) then
    enumFind (fun p => p.is_main) s.panes 0
  else if pyIsDigitStr target.data ∧ digitsToNat target.data < s.panes.length then
    (s.panes[digitsToNat target.data]?).map (fun p => (p, digitsToNat target.data))
  else
    enumFind (fun p => listInfixB (lowerStr target.data) (lowerStr p.id.data)) s.panes 0

/-- The tmux/worktree side effects observed by `create_layout`: the path
returned by `ensure_worktree` for each worktree name, the worktrees
directory itself, and the pane ids returned by `create_session` /
`split_pane_horizontal` / `split_pane_vertical`. -/
structure TmuxEnv where
  worktree : String → String
  worktreesDir : String
  createSession : String → String → String
  splitH : String → String → String
  splitV : String → String → String

/-- Reading `panes[i].tmux_pane_id` as done by `create_layout` (the value is always
present at the indices used). -/
def tmuxAt (panes : List AgentPane) (i : Nat) : String :=
  ((panes[i]?).bind AgentPane.tmux_pane_id).getD ""

/-- Embedding of `create_layout` from `layout.py`: main pane plus up to four subagent
panes, with the pane-3 reassignment in the four-subagent layout. -/
def create_layout (env : TmuxEnv) (num_subagents : Nat)
    (command repo_name tmux_session_name : String) : List AgentPane :=
  let main_worktree := env.worktree "M"
  let main_pane_id := env.createSession tmux_session_name main_worktree
  let panes0 : List AgentPane :=
    [⟨"M-" ++ repo_name, 0, command, true, some main_worktree, some main_pane_id⟩]
  let panes1 :=
    if 1 ≤ num_subagents then
      panes0 ++ [⟨"001-" ++ repo_name, 1, command, false,
        some (env.worktree "001"),
        some (env.splitH main_pane_id (env.worktree "001"))⟩]
    else panes0
  let panes2 :=
    if 2 ≤ num_subagents then
      panes1 ++ [⟨"002-" ++ repo_name, 2, command, false,
        some (env.worktree "002"),
        some (env.splitV (tmuxAt panes1 1) (env.worktree "002"))⟩]
    else panes1
  let panes3 :=
    if 3 ≤ num_subagents then
      panes2 ++ [⟨"003-" ++ repo_name, 3, command, false,
        some (env.worktree "003"),
        some (env.splitV (tmuxAt panes2 2) (env.worktree "003"))⟩]
    else panes2
  if 4 ≤ num_subagents then
    let wt3 := env.worktreesDir ++ "/" ++ "003"
    let pane003id := env.splitH (tmuxAt panes3 1) wt3
    (panes3.set 3 ⟨"003-" ++ repo_name, 3, command, false, some wt3, some pane003id⟩)
      ++ [⟨"004-" ++ repo_name, 4, command, false,
        some (env.worktree "004"), some (env.splitV pane003id (env.worktree "004"))⟩]
  else panes3

/-- The file operation `cmd_close` performs on the session store. -/
inductive SessionFileOp where
  | deleted : SessionFileOp
  | saved (s : AgentSession) : SessionFileOp

deriving DecidableEq

/-- The session mutation of `cmd_close` in `cli.py`: find the target pane,
drop every pane with its id, then save the session if panes remain and
delete the session file otherwise.  `none` models the `sys.exit(1)` paths
(pane not found, or pane without a tmux pane id), which leave the session
file untouched. -/
def cmd_close_update (s : AgentSession) (target : String) : Option SessionFileOp :=
  match find_pane_by_target s target with
  | none => none
  | some pr =>
    if pr.1.tmux_pane_id.getD "" = "" then none
    else
      let new_panes := s.panes.filter (fun p => p.id ≠ pr.1.id)
      if new_panes.isEmpty then some .deleted
      else some (.saved { s with panes := new_panes })

/-- Whether `cmd_kill` in `cli.py` reaches `session.delete()`: it does when
forced, and otherwise exactly when the stripped, lowercased confirmation
response is `y`. -/
def cmd_kill_deletes (force : Bool) (response : String) : Bool :=
  if force then true
  else lowerStr (pyStrip pyIsSpace response.data) == "y".data

/-!
## start_the_day.py: the minimal TOML-like store and the daily-run gate
-/



/-- Python `line.split("=", 1)` (the line is known to contain `=`). -/
def splitFirstEq (l : Str) : Str × Str :=
  (l.takeWhile (fun c => c ≠ '='), (l.dropWhile (fun c => c ≠ '=')).tail)

/-- One iteration of the loop in `parse_toml_simple`: strip the line, skip
blank lines and comments, then split on the first `=` and strip
whitespace-then-quotes from key and value. -/
def parseLine (raw : Str) : Option (Str × Str) :=
  let line := pyStrip pyIsSpace raw
  if line.head? = some '#' then none
  else if line = [] then none
  else if '=' ∈ line then
    some (pyStrip pyIsQuote (pyStrip pyIsSpace (splitFirstEq line).1),
      pyStrip pyIsQuote (pyStrip pyIsSpace (splitFirstEq line).2))
  else none

/-- Assignment `config[key] = value` on a Python dict modelled as an association list:
update in place when the key exists, append otherwise. -/
def dictInsert (m : List (Str × Str)) (k v : Str) : List (Str × Str) :=
  if m.any (fun e => e.1 = k) then
    m.map (fun e => if e.1 = k then (k, v) else e)
  else m ++ [(k, v)]

/-- Processing one line of `parse_toml_simple`. -/
def parseStep (cfg : List (Str × Str)) (line : Str) : List (Str × Str) :=
  match parseLine line with
  | some kv => dictInsert cfg kv.1 kv.2
  | none => cfg

/-- Embedding of `parse_toml_simple` from `start_the_day.py`. -/
def parse_toml_simple (content : Str) : List (Str × Str) :=
  ((pyStrip pyIsSpace content).splitOn '\n').foldl parseStep []

/-- The first fixed comment line written by `write_toml_simple`. -/
def comment1 : Str := '#' :: " start_the_day.py execution state".data

/-- The generated-on comment line; `ts` is `datetime.now().isoformat()`. -/
def comment2 (ts : Str) : Str := '#' :: (" Generated on ".data ++ ts)

/-- One `key = "value"` line as written by `write_toml_simple`. -/
def entryLine (k v : Str) : Str := k ++ (' ' :: '=' :: ' ' :: '"' :: (v ++ ['"']))

/-- Embedding of `write_toml_simple` from `start_the_day.py`: two comment lines, a blank
line, one entry line per key, joined with newlines plus a final newline. -/
def write_toml_simple (config : List (Str × Str)) (ts : Str) : Str :=
  List.intercalate ['\n'] ([comment1, comment2 ts, []] ++
    config.map (fun kv => entryLine kv.1 kv.2)) ++ ['\n']

/-- Neither end of the string is in the character class. -/
def noEdge (p : Char → Bool) (s : Str) : Prop :=
  s.head?.all (fun c => !p c) = true ∧ s.getLast?.all (fun c => !p c) = true

instance (p : Char → Bool) (s : Str) : Decidable (noEdge p s) := by
  unfold noEdge; infer_instance

/-- Conditions of the claim on stored values: no newline, no `=`, no
leading/trailing quote character. -/
def cleanVal (s : Str) : Prop := '\n' ∉ s ∧ '=' ∉ s ∧ noEdge pyIsQuote s

instance (s : Str) : Decidable (cleanVal s) := by
  unfold cleanVal; infer_instance

/-- Conditions of the claim on keys: a clean value that does not start with
`#`. -/
def cleanKeyClaim (s : Str) : Prop := cleanVal s ∧ s.head? ≠ some '#'

instance (s : Str) : Decidable (cleanKeyClaim s) := by
  unfold cleanKeyClaim; infer_instance

/-- The amended conditions on keys: additionally no leading/trailing
whitespace. -/
def cleanKey (s : Str) : Prop := cleanKeyClaim s ∧ noEdge pyIsSpace s

instance (s : Str) : Decidable (cleanKey s) := by
  unfold cleanKey; infer_instance

/-- The key under which `start_the_day.py` records the last run date. -/
def last_run_key : Str := "last_run_date".data

/-- Embedding of `update_execution_state`: load the state file, set `last_run_date` to
today, write it back. -/
def update_execution_state (content today ts : Str) : Str :=
  write_toml_simple (dictInsert (parse_toml_simple content) last_run_key today) ts

/-- Embedding of `already_ran_today`: load the state file and compare `last_run_date`
with today. -/
def already_ran_today (content today : Str) : Bool :=
  (parse_toml_simple content).lookup last_run_key == some today

/-!
## Theorems
-/

/-- C7: `try_fast_forward` attempts (or, in dry-run mode, reports) the
fast-forward exactly when the branch is main, the working copy is clean,
both head hashes resolve and differ, and the merge base equals the local
head; in every other case it returns `false` and runs no merge. -/
theorem C7_try_fast_forward_characterization (g : RepoGit) (dry_run : Bool) :
    try_fast_forward g dry_run =
      if ffCond g then (if dry_run then (true, false) else (g.mergeOk, true))
      else (false, false) := by
  obtain ⟨b, st, lh, uh, mb, mo⟩ := g
  simp only [try_fast_forward, ffCond]
  cases st <;> cases lh <;> cases uh <;> split_ifs <;> simp_all

/-- C5: when the worktree directory exists and contains a `.git` marker,
`ensure_worktree` returns that path and performs no git action (no branch
is created); moreover the returned path never depends on the filesystem
state, so a repeated call returns the same path. -/
theorem C5_ensure_worktree_idempotent (exists? : String → Bool)
    (name dir ts : String)
    (hdir : exists? (dir ++ "/" ++ name) = true)
    (hgit : exists? (dir ++ "/" ++ name ++ "/.git") = true) :
    ensure_worktree exists? name dir ts = (dir ++ "/" ++ name, WtAction.noop) ∧
      ∀ fs2 : String → Bool, ∀ ts2 : String,
        (ensure_worktree fs2 name dir ts2).1 = dir ++ "/" ++ name := by
  constructor
  · simp [ensure_worktree, hdir, hgit]
  · intro fs2 ts2
    simp only [ensure_worktree]
    split_ifs <;> rfl

/-- Witness for C5 at a concrete filesystem. -/
theorem C5_ensure_worktree_idempotent_witness :
    ensure_worktree (fun p => p == "d/M" || p == "d/M/.git") "M" "d" "t" =
      ("d/M", WtAction.noop) :=
  (C5_ensure_worktree_idempotent (fun p => p == "d/M" || p == "d/M/.git")
    "M" "d" "t" (by decide) (by decide)).1

/-- C8: for `auto <action> [args...]`, the action name is normalized by
turning underscores into dashes; unknown actions exit 1; known actions exit
with the exit code of the child, 130 on keyboard interrupt (a missing script
file exits 1). -/
theorem C8_dispatcher_exit_codes (actions : List Str) (inp : Str)
    (outcome : RunOutcome) (hne : actions ≠ []) (h1 : inp ≠ "-h".data)
    (h2 : inp ≠ "--help".data) :
    (actions.contains (normalize_action_name inp) = false →
      dispatch actions inp outcome = .exit 1) ∧
    (actions.contains (normalize_action_name inp) = true →
      dispatch actions inp outcome =
        match outcome with
        | .exited c => .exit c
        | .scriptMissing => .exit 1
        | .interrupted => .exit 130) := by
  have e0 : actions.isEmpty = false := by
    cases actions with
    | nil => exact absurd rfl hne
    | cons a t => rfl
  have e1 : (inp == "-h".data) = false := by
    simpa using h1
  have e2 : (inp == "--help".data) = false := by
    simpa using h2
  constructor <;> intro hc
  · have hm : normalize_action_name inp ∉ actions := by simpa using hc
    simp [dispatch, e0, e1, e2, hm]
  · have hm : normalize_action_name inp ∈ actions := by simpa using hc
    simp [dispatch, e0, e1, e2, hm]

/-- Witness for C8: the action `git_sync` is normalized to `git-sync`,
found, and the exit code 3 of the child is forwarded. -/
theorem C8_dispatcher_exit_codes_witness :
    dispatch ["git-sync".data] "git_sync".data (.exited 3) = .exit 3 :=
  (C8_dispatcher_exit_codes ["git-sync".data] "git_sync".data (.exited 3)
    (by decide) (by decide) (by decide)).2 (by decide)

theorem paneFromJson_paneToJson (p : AgentPane) :
    paneFromJson (paneToJson p) = some p := by
  obtain ⟨i, pi, c, im, wp, tp⟩ := p
  cases wp <;> cases tp <;> rfl

theorem panesFromJson_map (l : List AgentPane) :
    panesFromJson (l.map paneToJson) = some l := by
  induction l with
  | nil => rfl
  | cons p t ih =>
    simp [panesFromJson, paneFromJson_paneToJson, ih]

/-- C1: saving an `AgentSession` and loading it back yields a session that
is field-for-field equal to the original, for any combination of optional
fields and any list of panes. -/
theorem C1_session_roundtrip (s : AgentSession) :
    sessionFromJson (sessionToJson s) = some s := by
  obtain ⟨sid, wp, rn, og, ca, ps, wid, tsn⟩ := s
  cases wid <;> cases tsn <;>
    simp [sessionToJson, sessionFromJson, panesFromJson_map, asStr, asOptInt,
      asOptStr, optIntJson, optStrJson, List.lookup]

theorem fuzzy_stage_eq {α : Type} (q : Str) (cands : List Str)
    (errNo errAmbigVal : α) (body : Str → α) :
    (if (cands.filter (containsCI q)).length = 0 then errNo
     else if (cands.filter (containsCI q)).length > 1 ∧
         ((cands.filter (containsCI q)).filter
           (fun o => lowerStr o == lowerStr q)).length ≠ 1 then
       errAmbigVal
     else
       headOr (if (cands.filter (containsCI q)).length > 1 then
           (cands.filter (containsCI q)).filter
             (fun o => lowerStr o == lowerStr q)
         else cands.filter (containsCI q)) errNo body) =
      (match specSelect q cands with
       | none =>
         if (cands.filter (containsCI q)).isEmpty then errNo
         else errAmbigVal
       | some x => body x) := by
  simp only [specSelect]
  rcases hm : cands.filter (containsCI q) with _ | ⟨c1, _ | ⟨c2, t⟩⟩
  · simp [headOr]
  · simp [headOr]
  · rcases he : (c1 :: c2 :: t).filter (fun o => lowerStr o == lowerStr q) with
      _ | ⟨e1, _ | ⟨e2, t2⟩⟩ <;> simp [he, headOr]

/-- C2 (amended): `fuzzy_match_workspace` behaves exactly as the
specification-level model: unique case-insensitive containment match, with
the "no match" / "ambiguous" errors otherwise, tie-broken by a unique
case-INSENSITIVE exact match at each stage; the result is a deterministic
function of its inputs. -/
theorem C2_fuzzy_match_spec (query_org query_repo : Str) (workspaces : WsMap) :
    fuzzy_match_workspace query_org query_repo workspaces =
      fuzzy_spec_model query_org query_repo workspaces := by
  simp only [fuzzy_match_workspace]
  rw [fuzzy_stage_eq]
  simp only [fuzzy_spec_model]
  cases specSelect query_org (workspaces.map Prod.fst) with
  | none => rfl
  | some org =>
    exact fuzzy_stage_eq query_repo (((workspaces.lookup org).getD []).map Prod.fst)
      (Except.error (MatchError.noRepo query_repo org))
      (Except.error (MatchError.ambiguousRepo query_repo
        ((((workspaces.lookup org).getD []).map Prod.fst).filter (containsCI query_repo))))
      (fun repo =>
        Except.ok (org, repo, (((workspaces.lookup org).getD []).lookup repo).getD []))

/-- Counterexample for C2 as stated: with orgs `Foo` and `foo` and query
`foo`, both candidates contain the query and exactly one (`foo`) is a
case-SENSITIVE exact match, so the claim requires `foo` to be returned —
but the code tie-breaks case-insensitively, finds two case-insensitive
exact matches, and raises the ambiguous error. -/
theorem C2_fuzzy_match_counterexample :
    (["Foo".data, "foo".data].filter (containsCI "foo".data)).length = 2 ∧
    (["Foo".data, "foo".data].filter (fun o => o == "foo".data)).length = 1 ∧
    fuzzy_match_workspace "foo".data "r".data
        [("Foo".data, [("r".data, "p".data)]),
         ("foo".data, [("r".data, "q".data)])] =
      .error (.ambiguousOrg "foo".data ["Foo".data, "foo".data]) := by
  decide

theorem enumFind_eq_none (pred : AgentPane → Bool) (l : List AgentPane) (i : Nat) :
    enumFind pred l i = none ↔ ∀ p ∈ l, pred p = false := by
  induction l generalizing i with
  | nil => simp [enumFind]
  | cons a t ih =>
    by_cases h : pred a = true
    · simp [enumFind, h]
    · simp only [Bool.not_eq_true] at h
      simp [enumFind, h, ih]

theorem enumFind_some (pred : AgentPane → Bool) (l : List AgentPane) (i : Nat)
    (r : AgentPane × Nat) (h : enumFind pred l i = some r) :
    i ≤ r.2 ∧ l[r.2 - i]? = some r.1 ∧ pred r.1 = true := by
  induction l generalizing i with
  | nil => simp [enumFind] at h
  | cons a t ih =>
    by_cases ha : pred a = true
    · simp [enumFind, ha] at h
      subst h
      simp [ha]
    · simp only [Bool.not_eq_true] at ha
      simp [enumFind, ha] at h
      obtain ⟨h1, h2, h3⟩ := ih (i + 1) h
      refine ⟨by omega, ?_, h3⟩
      have : r.2 - i = (r.2 - (i + 1)) + 1 := by omega
      rw [this]
      simpa using h2

/-- C10: `find_pane_by_target` resolves its target in exactly the fixed
order the claim describes (`main` keyword when a main pane exists, then an
in-range zero-based digit index, then the first case-insensitive id
substring match, else `None`); in particular when the target is `main` but
no pane has the main flag, the id-substring fallback applies. -/
theorem C10_find_pane_order (s : AgentSession) (target : String) :
    find_pane_by_target s target = find_pane_spec s target := by
  simp only [find_pane_by_target, find_pane_spec]
  by_cases hm : lowerStr target.data == "main".data
  · simp only [hm, if_true]
    cases he : enumFind (fun p => p.is_main) s.panes 0 with
    | some r =>
      have := (enumFind_some _ _ _ _ he).2.2
      have hany : s.panes.any (fun p => p.is_main) = true := by
        have hmem : r.1 ∈ s.panes := by
          have h2 := (enumFind_some _ _ _ _ he).2.1
          exact List.getElem?_mem h2
        exact List.any_eq_true.mpr ⟨r.1, hmem, this⟩
      simp [he, hany, eq_of_beq hm, optOr]
    | none =>
      have hall := (enumFind_eq_none _ _ _).mp he
      have hany : s.panes.any (fun p => p.is_main) = false := by
        simp only [List.any_eq_false]
        intro p hp
        simp [hall p hp]
      simp [he, hany, eq_of_beq hm, optOr]
  · have hm2 : (lowerStr target.data == "main".data) = false := by
      simpa using hm
    simp [hm2, optOr]

theorem str_append_right_injective (r : String) :
    Function.Injective (fun p : String => p ++ r) := by
  intro a b hab
  apply String.ext
  have := congrArg String.data hab
  simp only [String.data_append] at this
  exact List.append_cancel_right this

theorem nodup_append_right (ps : List String) (r : String) (h : ps.Nodup) :
    (ps.map (fun p => p ++ r)).Nodup :=
  h.map (str_append_right_injective r)

theorem find_pane_getElem (s : AgentSession) (t : String) (pr : AgentPane × Nat)
    (h : find_pane_by_target s t = some pr) : s.panes[pr.2]? = some pr.1 := by
  simp only [find_pane_by_target] at h
  by_cases hm : (lowerStr t.data == "main".data) = true
  · rw [if_pos hm] at h
    cases he : enumFind (fun p => p.is_main) s.panes 0 with
    | some r =>
      rw [he] at h
      simp only [optOr, Option.some.injEq] at h
      subst h
      simpa using (enumFind_some _ _ _ _ he).2.1
    | none =>
      rw [he] at h
      simp only [optOr] at h
      by_cases hd : pyIsDigitStr t.data ∧ digitsToNat t.data < s.panes.length
      · rw [if_pos hd, Option.map_eq_some'] at h
        obtain ⟨p, hp, hpr⟩ := h
        rw [← hpr]
        simpa using hp
      · rw [if_neg hd] at h
        simpa using (enumFind_some _ _ _ _ h).2.1
  · rw [if_neg hm] at h
    simp only [optOr] at h
    by_cases hd : pyIsDigitStr t.data ∧ digitsToNat t.data < s.panes.length
    · rw [if_pos hd, Option.map_eq_some'] at h
      obtain ⟨p, hp, hpr⟩ := h
      rw [← hpr]
      simpa using hp
    · rw [if_neg hd] at h
      simpa using (enumFind_some _ _ _ _ h).2.1

theorem countP_filter_ne_id (l : List AgentPane) (p : AgentPane)
    (hmem : p ∈ l) (hnd : (l.map AgentPane.id).Nodup) :
    (l.filter (fun q => q.id ≠ p.id)).countP (fun q => q.is_main) =
      l.countP (fun q => q.is_main) - (if p.is_main then 1 else 0) := by
  induction l with
  | nil => simp at hmem
  | cons a t ih =>
    rw [List.map_cons, List.nodup_cons] at hnd
    obtain ⟨hna, hnt⟩ := hnd
    by_cases hid : a.id = p.id
    · have hpa : p = a := by
        rcases List.mem_cons.mp hmem with h | h
        · exact h
        · rw [hid] at hna
          exact absurd (List.mem_map_of_mem AgentPane.id h) hna
      have h1 : List.filter (fun q => decide (q.id ≠ p.id)) (a :: t) = t := by
        rw [List.filter_cons_of_neg (by simp [hid])]
        rw [List.filter_eq_self]
        intro q hq
        simp only [decide_eq_true_eq]
        intro he
        rw [← hid] at he
        exact hna (he ▸ List.mem_map_of_mem AgentPane.id hq)
      rw [h1, hpa, List.countP_cons]
      split_ifs <;> omega
    · have hpt : p ∈ t := by
        rcases List.mem_cons.mp hmem with h | h
        · exact absurd (by rw [h] : a.id = p.id) hid
        · exact h
      have hcp : (if p.is_main = true then 1 else 0) ≤
          List.countP (fun q => q.is_main) t := by
        split_ifs with h
        · exact List.countP_pos_iff.mpr ⟨p, hpt, by simp [h]⟩
        · exact Nat.zero_le _
      rw [List.filter_cons_of_pos (by simp [hid]), List.countP_cons,
        List.countP_cons, ih hpt hnt]
      split_ifs at hcp ⊢ <;> omega

theorem filter_ne_id_eq_eraseIdx (l : List AgentPane) (p : AgentPane) (i : Nat)
    (hget : l[i]? = some p) (hnd : (l.map AgentPane.id).Nodup) :
    l.filter (fun q => q.id ≠ p.id) = l.eraseIdx i := by
  induction l generalizing i with
  | nil => simp at hget
  | cons a t ih =>
    rw [List.map_cons, List.nodup_cons] at hnd
    obtain ⟨hna, hnt⟩ := hnd
    cases i with
    | zero =>
      rw [List.getElem?_cons_zero, Option.some.injEq] at hget
      subst hget
      rw [List.eraseIdx_cons_zero, List.filter_cons_of_neg (by simp)]
      rw [List.filter_eq_self]
      intro q hq
      simp only [decide_eq_true_eq]
      intro he
      exact hna (he ▸ List.mem_map_of_mem AgentPane.id hq)
    | succ j =>
      rw [List.getElem?_cons_succ] at hget
      have hpt : p ∈ t := List.getElem?_mem hget
      have hne : a.id ≠ p.id := by
        intro he
        rw [he] at hna
        exact hna (List.mem_map_of_mem AgentPane.id hpt)
      rw [List.eraseIdx_cons_succ, List.filter_cons_of_pos (by simp [hne]),
        ih j hget hnt]

theorem append_ne_of_ne (a b r : String) (h : a ≠ b) : a ++ r ≠ b ++ r :=
  fun he => h (str_append_right_injective r he)

/-- C3 (amended): layout creation always yields panes with pairwise
distinct identifiers and exactly one main pane; closing a pane preserves
identifier uniqueness, and the saved session keeps exactly one main pane
when the closed pane was not the main pane (and has zero main panes when it
was). -/
theorem C3_pane_invariants :
    (∀ (env : TmuxEnv) (n : Nat) (c r t : String),
      ((create_layout env n c r t).map AgentPane.id).Nodup ∧
        (create_layout env n c r t).countP (fun p => p.is_main) = 1) ∧
    (∀ (s : AgentSession) (target : String) (pr : AgentPane × Nat)
        (s2 : AgentSession),
      (s.panes.map AgentPane.id).Nodup →
      s.panes.countP (fun p => p.is_main) = 1 →
      find_pane_by_target s target = some pr →
      cmd_close_update s target = some (.saved s2) →
      ((s2.panes.map AgentPane.id).Nodup ∧
        s2.panes.countP (fun p => p.is_main) =
          (if pr.1.is_main then 0 else 1))) := by
  constructor
  · intro env n c r t
    rcases n with _|(_|(_|(_|n)))
    · constructor
      · have hmap : (create_layout env 0 c r t).map AgentPane.id =
            ["M-"].map (fun p => p ++ r) := by
          simp [create_layout, tmuxAt]
        rw [hmap]
        exact nodup_append_right _ r (by decide)
      · simp [create_layout, tmuxAt, List.countP_cons]
    · constructor
      · have hmap : (create_layout env 1 c r t).map AgentPane.id =
            ["M-", "001-"].map (fun p => p ++ r) := by
          simp [create_layout, tmuxAt]
        rw [hmap]
        exact nodup_append_right _ r (by decide)
      · simp [create_layout, tmuxAt, List.countP_cons]
    · constructor
      · have hmap : (create_layout env 2 c r t).map AgentPane.id =
            ["M-", "001-", "002-"].map (fun p => p ++ r) := by
          simp [create_layout, tmuxAt]
        rw [hmap]
        exact nodup_append_right _ r (by decide)
      · simp [create_layout, tmuxAt, List.countP_cons]
    · constructor
      · have hmap : (create_layout env 3 c r t).map AgentPane.id =
            ["M-", "001-", "002-", "003-"].map (fun p => p ++ r) := by
          simp [create_layout, tmuxAt]
        rw [hmap]
        exact nodup_append_right _ r (by decide)
      · simp [create_layout, tmuxAt, List.countP_cons]
    · have h1 : 1 ≤ n + 4 := by omega
      have h2 : 2 ≤ n + 4 := by omega
      have h3 : 3 ≤ n + 4 := by omega
      have h4 : 4 ≤ n + 4 := by omega
      constructor
      · have hmap : (create_layout env (n + 4) c r t).map AgentPane.id =
            ["M-", "001-", "002-", "003-", "004-"].map (fun p => p ++ r) := by
          simp [create_layout, tmuxAt, h1, h2, h3, h4, List.set]
        rw [hmap]
        exact nodup_append_right _ r (by decide)
      · simp [create_layout, tmuxAt, h1, h2, h3, h4, List.set, List.countP_cons]
  · intro s target pr s2 hnd hcount hfind hclose
    have hget := find_pane_getElem s target pr hfind
    have hmem : pr.1 ∈ s.panes := List.getElem?_mem hget
    simp only [cmd_close_update, hfind] at hclose
    by_cases htm : pr.1.tmux_pane_id.getD "" = ""
    · rw [if_pos htm] at hclose
      exact absurd hclose (by simp)
    · rw [if_neg htm] at hclose
      by_cases hemp : (s.panes.filter (fun p => p.id ≠ pr.1.id)).isEmpty = true
      · rw [if_pos hemp] at hclose
        exact absurd hclose (by simp)
      · rw [if_neg hemp] at hclose
        simp only [Option.some.injEq, SessionFileOp.saved.injEq] at hclose
        have hs2 : s2.panes = s.panes.filter (fun p => p.id ≠ pr.1.id) := by
          rw [← hclose]
        constructor
        · rw [hs2]
          exact List.Nodup.sublist
            (List.Sublist.map AgentPane.id (List.filter_sublist _)) hnd
        · rw [hs2, countP_filter_ne_id s.panes pr.1 hmem hnd, hcount]
          split_ifs <;> rfl

/-- Counterexample for C3 as stated: closing the main pane of a two-pane
session saves a session state in which NO pane has the main flag set, so
"exactly one pane has the main flag" does not hold for every state saved
after a close-pane operation. -/
theorem C3_pane_invariants_counterexample :
    cmd_close_update
        ⟨"auto-agent-1", "/w", "demo", "org", "2026-01-01",
          [⟨"M-demo", 0, "claude", true, none, some "%0"⟩,
           ⟨"001-demo", 1, "claude", false, none, some "%1"⟩],
          none, some "auto-agent-1"⟩ "main" =
      some (.saved ⟨"auto-agent-1", "/w", "demo", "org", "2026-01-01",
        [⟨"001-demo", 1, "claude", false, none, some "%1"⟩],
        none, some "auto-agent-1"⟩) ∧
    ([⟨"001-demo", 1, "claude", false, none, some "%1"⟩] :
        List AgentPane).countP (fun p => p.is_main) = 0 := by
  decide

/-- Witness for C3: layout creation with one subagent, and closing the
non-main pane `001` of a two-pane session, at concrete inputs. -/
theorem C3_pane_invariants_witness :
    (((create_layout ⟨fun n => "/wt/" ++ n, "/wt", fun _ _ => "%0",
        fun _ _ => "%1", fun _ _ => "%2"⟩ 1 "claude" "demo" "t").map
          AgentPane.id).Nodup ∧
      (create_layout ⟨fun n => "/wt/" ++ n, "/wt", fun _ _ => "%0",
        fun _ _ => "%1", fun _ _ => "%2"⟩ 1 "claude" "demo" "t").countP
          (fun p => p.is_main) = 1) ∧
    ((([⟨"M-demo", 0, "claude", true, none, some "%0"⟩] :
        List AgentPane).map AgentPane.id).Nodup ∧
      ([⟨"M-demo", 0, "claude", true, none, some "%0"⟩] :
        List AgentPane).countP (fun p => p.is_main) =
          (if (false : Bool) then 0 else 1)) :=
  ⟨C3_pane_invariants.1 ⟨fun n => "/wt/" ++ n, "/wt", fun _ _ => "%0",
      fun _ _ => "%1", fun _ _ => "%2"⟩ 1 "claude" "demo" "t",
    C3_pane_invariants.2
      ⟨"auto-agent-1", "/w", "demo", "org", "2026-01-01",
        [⟨"M-demo", 0, "claude", true, none, some "%0"⟩,
         ⟨"001-demo", 1, "claude", false, none, some "%1"⟩],
        none, some "auto-agent-1"⟩ "001"
      (⟨"001-demo", 1, "claude", false, none, some "%1"⟩, 1)
      ⟨"auto-agent-1", "/w", "demo", "org", "2026-01-01",
        [⟨"M-demo", 0, "claude", true, none, some "%0"⟩],
        none, some "auto-agent-1"⟩
      (by decide) (by decide) (by decide) (by decide)⟩

/-- C4 (amended): when pane ids are unique, closing removes exactly the
matched pane (the one at the found index); the session file is deleted if
and only if no panes remain and is saved with the remaining panes
otherwise; the kill command deletes the session file when forced, and
otherwise exactly when the stripped, lowercased confirmation response is
`y`. -/
theorem C4_close_kill_behavior :
    (∀ (s : AgentSession) (target : String) (pr : AgentPane × Nat),
      (s.panes.map AgentPane.id).Nodup →
      find_pane_by_target s target = some pr →
      pr.1.tmux_pane_id.getD "" ≠ "" →
      cmd_close_update s target =
        some (if (s.panes.eraseIdx pr.2).isEmpty then .deleted
          else .saved { s with panes := s.panes.eraseIdx pr.2 })) ∧
    (∀ response : String, cmd_kill_deletes true response = true) ∧
    (∀ response : String, cmd_kill_deletes false response =
      (lowerStr (pyStrip pyIsSpace response.data) == "y".data)) := by
  refine ⟨?_, fun _ => rfl, fun _ => rfl⟩
  intro s target pr hnd hfind htm
  have hget := find_pane_getElem s target pr hfind
  have herase := filter_ne_id_eq_eraseIdx s.panes pr.1 pr.2 hget hnd
  simp only [cmd_close_update, hfind, if_neg htm, herase]
  split_ifs <;> rfl

/-- Counterexample for C4 as stated: (1) in a session with duplicate pane
ids, close removes BOTH panes sharing the matched id (three panes become
one, not two), so close does not remove exactly that pane for every
session; (2) an unforced kill whose confirmation response is `n` does not
delete the session file, so the kill command does not always delete it. -/
theorem C4_close_kill_counterexample :
    cmd_close_update
        ⟨"auto-agent-2", "/w", "demo", "org", "2026-01-01",
          [⟨"x", 0, "claude", true, none, some "%0"⟩,
           ⟨"x", 1, "claude", false, none, some "%1"⟩,
           ⟨"y", 2, "claude", false, none, some "%2"⟩],
          none, some "auto-agent-2"⟩ "x" =
      some (.saved ⟨"auto-agent-2", "/w", "demo", "org", "2026-01-01",
        [⟨"y", 2, "claude", false, none, some "%2"⟩],
        none, some "auto-agent-2"⟩) ∧
    cmd_kill_deletes false "n" = false := by
  decide

/-- Witness for C4: closing pane index 1 of a two-pane session with unique
ids, plus the two kill cases, at concrete inputs. -/
theorem C4_close_kill_witness :
    cmd_close_update
        ⟨"auto-agent-1", "/w", "demo", "org", "2026-01-01",
          [⟨"M-demo", 0, "claude", true, none, some "%0"⟩,
           ⟨"001-demo", 1, "claude", false, none, some "%1"⟩],
          none, some "auto-agent-1"⟩ "1" =
      some (.saved ⟨"auto-agent-1", "/w", "demo", "org", "2026-01-01",
        [⟨"M-demo", 0, "claude", true, none, some "%0"⟩],
        none, some "auto-agent-1"⟩) ∧
    cmd_kill_deletes true "n" = true ∧
    cmd_kill_deletes false "Y" =
      (lowerStr (pyStrip pyIsSpace "Y".data) == "y".data) :=
  ⟨C4_close_kill_behavior.1
      ⟨"auto-agent-1", "/w", "demo", "org", "2026-01-01",
        [⟨"M-demo", 0, "claude", true, none, some "%0"⟩,
         ⟨"001-demo", 1, "claude", false, none, some "%1"⟩],
        none, some "auto-agent-1"⟩ "1"
      (⟨"001-demo", 1, "claude", false, none, some "%1"⟩, 1)
      (by decide) (by decide) (by decide),
    C4_close_kill_behavior.2.1 "n", C4_close_kill_behavior.2.2 "Y"⟩

theorem lstrip_cons_of_neg {p : Char → Bool} {c : Char} (l : Str)
    (hc : p c = false) : pyLStrip p (c :: l) = c :: l := by
  simp [pyLStrip, List.dropWhile_cons, hc]

theorem rstrip_cons_of_neg {p : Char → Bool} {c : Char} (l : Str)
    (hc : p c = false) : pyRStrip p (c :: l) = c :: pyRStrip p l := by
  simp only [pyRStrip, List.reverse_cons, List.dropWhile_append]
  split_ifs with h
  · rw [List.isEmpty_iff] at h
    simp [h, List.dropWhile_cons, hc]
  · rw [List.isEmpty_iff] at h
    simp

theorem rstrip_append {p : Char → Bool} (a b : Str) :
    pyRStrip p (a ++ b) =
      if pyRStrip p b = [] then pyRStrip p a else a ++ pyRStrip p b := by
  simp only [pyRStrip, List.reverse_append, List.dropWhile_append]
  split_ifs with h1 h2 h2
  · rfl
  · rw [List.isEmpty_iff] at h1
    exact absurd (by simp [h1]) h2
  · rw [List.isEmpty_iff] at h1
    rw [List.reverse_eq_nil_iff] at h2
    exact absurd h2 h1
  · simp

theorem rstrip_append_of_neg {p : Char → Bool} {c : Char} (l : Str)
    (hc : p c = false) : pyRStrip p (l ++ [c]) = l ++ [c] := by
  rw [rstrip_append]
  have h1 : pyRStrip p [c] = [c] := by simp [pyRStrip, hc]
  rw [h1]
  simp

theorem rstrip_nil {p : Char → Bool} : pyRStrip p [] = [] := rfl

theorem lstrip_fix {p : Char → Bool} (s : Str)
    (h : s.head?.all (fun c => !p c) = true) : pyLStrip p s = s := by
  cases s with
  | nil => rfl
  | cons c t =>
    simp only [List.head?_cons, Option.all_some, Bool.not_eq_eq_eq_not,
      Bool.not_true] at h
    exact lstrip_cons_of_neg t h

theorem rstrip_fix {p : Char → Bool} (s : Str)
    (h : s.getLast?.all (fun c => !p c) = true) : pyRStrip p s = s := by
  rcases List.eq_nil_or_concat s with hs | ⟨l, c, hs⟩
  · subst hs; rfl
  · subst hs
    rw [List.concat_eq_append] at h ⊢
    rw [List.getLast?_concat] at h
    simp only [Option.all_some, Bool.not_eq_eq_eq_not, Bool.not_true] at h
    exact rstrip_append_of_neg l h

theorem strip_fix {p : Char → Bool} (s : Str) (h : noEdge p s) :
    pyStrip p s = s := by
  obtain ⟨h1, h2⟩ := h
  rw [pyStrip, lstrip_fix s h1, rstrip_fix s h2]

theorem pyStrip_cons_of_neg {p : Char → Bool} {c : Char} (l : Str)
    (hc : p c = false) : pyStrip p (c :: l) = c :: pyRStrip p l := by
  rw [pyStrip, lstrip_cons_of_neg l hc, rstrip_cons_of_neg l hc]

theorem mem_of_mem_rstrip {p : Char → Bool} {c : Char} {l : Str}
    (h : c ∈ pyRStrip p l) : c ∈ l := by
  rw [pyRStrip] at h
  have h2 : List.Sublist (l.reverse.dropWhile p) l.reverse :=
    List.dropWhile_sublist p
  have h3 := h2.reverse
  rw [List.reverse_reverse] at h3
  exact h3.subset h

theorem takeWhile_dropWhile_sep (p : Char → Bool) (k : Str) (sep : Char)
    (r : Str) (hk : ∀ c ∈ k, p c = true) (hsep : p sep = false) :
    (k ++ sep :: r).takeWhile p = k ∧ (k ++ sep :: r).dropWhile p = sep :: r := by
  induction k with
  | nil => simp [List.takeWhile_cons, List.dropWhile_cons, hsep]
  | cons c t ih =>
    have hc : p c = true := hk c (by simp)
    have iht := ih (fun x hx => hk x (by simp [hx]))
    simp only [List.cons_append, List.takeWhile_cons, List.dropWhile_cons, hc,
      if_true]
    exact ⟨by rw [iht.1], by rw [iht.2]⟩

theorem parseLine_hash (l : Str) : parseLine ('#' :: l) = none := by
  have h : pyStrip pyIsSpace ('#' :: l) = '#' :: pyRStrip pyIsSpace l :=
    pyStrip_cons_of_neg l (by decide)
  simp [parseLine, h]

theorem parseLine_nil : parseLine [] = none := rfl

theorem parseLine_comment1 : parseLine comment1 = none := parseLine_hash _

theorem parseLine_comment2 (ts : Str) : parseLine (comment2 ts) = none :=
  parseLine_hash _

theorem value_token_roundtrip (v : Str) (hv : cleanVal v) :
    pyStrip pyIsQuote (pyStrip pyIsSpace (' ' :: '"' :: (v ++ ['"']))) = v := by
  obtain ⟨hvnl, hveq, hvq⟩ := hv
  have h1 : pyLStrip pyIsSpace (' ' :: '"' :: (v ++ ['"'])) =
      '"' :: (v ++ ['"']) := by
    rw [pyLStrip, List.dropWhile_cons_of_pos (by decide),
      List.dropWhile_cons_of_neg (by decide)]
  have h2 : pyRStrip pyIsSpace ('"' :: (v ++ ['"'])) = '"' :: (v ++ ['"']) := by
    have he : ('"' :: (v ++ ['"'])) = ('"' :: v) ++ ['"'] := by simp
    rw [he, rstrip_append_of_neg _ (by decide)]
  rw [show pyStrip pyIsSpace (' ' :: '"' :: (v ++ ['"'])) = '"' :: (v ++ ['"'])
    from by rw [pyStrip, h1, h2]]
  have h3 : pyLStrip pyIsQuote ('"' :: (v ++ ['"'])) =
      pyLStrip pyIsQuote (v ++ ['"']) := by
    rw [pyLStrip, pyLStrip, List.dropWhile_cons_of_pos (by decide)]
  cases v with
  | nil => rw [pyStrip, h3]; decide
  | cons c v2 =>
    have hcq : pyIsQuote c = false := by
      have := hvq.1
      simp only [List.head?_cons, Option.all_some, Bool.not_eq_eq_eq_not,
        Bool.not_true] at this
      exact this
    have h4 : pyLStrip pyIsQuote ((c :: v2) ++ ['"']) = (c :: v2) ++ ['"'] := by
      rw [List.cons_append]
      exact lstrip_cons_of_neg _ hcq
    have h5 : pyRStrip pyIsQuote ((c :: v2) ++ ['"']) = c :: v2 := by
      rw [rstrip_append]
      have hq1 : pyRStrip pyIsQuote ['"'] = [] := by decide
      rw [hq1, if_pos rfl]
      exact rstrip_fix _ hvq.2
    rw [pyStrip, h3, h4, h5]

theorem parseLine_entryLine (k v : Str) (hk : cleanKey k) (hv : cleanVal v) :
    parseLine (entryLine k v) = some (k, v) := by
  obtain ⟨⟨⟨hknl, hkeq, hkq⟩, hkhash⟩, hkws⟩ := hk
  cases k with
  | nil =>
    have hline : pyStrip pyIsSpace (entryLine [] v) =
        '=' :: ' ' :: '"' :: (v ++ ['"']) := by
      rw [entryLine, List.nil_append]
      have h1 : pyLStrip pyIsSpace (' ' :: '=' :: ' ' :: '"' :: (v ++ ['"'])) =
          '=' :: ' ' :: '"' :: (v ++ ['"']) := by
        rw [pyLStrip, List.dropWhile_cons_of_pos (by decide),
          List.dropWhile_cons_of_neg (by decide)]
      have h2 : pyRStrip pyIsSpace ('=' :: ' ' :: '"' :: (v ++ ['"'])) =
          '=' :: ' ' :: '"' :: (v ++ ['"']) := by
        have he : ('=' :: ' ' :: '"' :: (v ++ ['"'])) =
            ('=' :: ' ' :: '"' :: v) ++ ['"'] := by simp
        rw [he, rstrip_append_of_neg _ (by decide), ← he]
      rw [pyStrip, h1, h2]
    have hsplit : splitFirstEq ('=' :: ' ' :: '"' :: (v ++ ['"'])) =
        ([], ' ' :: '"' :: (v ++ ['"'])) := by
      rw [splitFirstEq, List.takeWhile_cons_of_neg (by decide),
        List.dropWhile_cons_of_neg (by decide)]
      rfl
    have hc1 : ¬(('=' :: ' ' :: '"' :: (v ++ ['"'])).head? = some '#') := by simp
    have hc2 : ¬(('=' :: ' ' :: '"' :: (v ++ ['"'])) = []) := by simp
    have hc3 : '=' ∈ ('=' :: ' ' :: '"' :: (v ++ ['"'])) := by simp
    have hsp1 : (splitFirstEq ('=' :: ' ' :: '"' :: (v ++ ['"']))).1 = [] := by
      rw [hsplit]
    have hsp2 : (splitFirstEq ('=' :: ' ' :: '"' :: (v ++ ['"']))).2 =
        ' ' :: '"' :: (v ++ ['"']) := by
      rw [hsplit]
    simp only [parseLine]
    rw [hline, if_neg hc1, if_neg hc2, if_pos hc3, hsp1, hsp2,
      value_token_roundtrip v hv]
    rfl
  | cons c k2 =>
    have hcws : pyIsSpace c = false := by
      have := hkws.1
      simp only [List.head?_cons, Option.all_some, Bool.not_eq_eq_eq_not,
        Bool.not_true] at this
      exact this
    have hchash : c ≠ '#' := by
      intro he
      exact hkhash (by rw [he]; rfl)
    have hline : pyStrip pyIsSpace (entryLine (c :: k2) v) =
        entryLine (c :: k2) v := by
      rw [entryLine, List.cons_append, pyStrip, lstrip_cons_of_neg _ hcws,
        ← List.cons_append]
      have he : (c :: k2) ++ (' ' :: '=' :: ' ' :: '"' :: (v ++ ['"'])) =
          ((c :: k2) ++ (' ' :: '=' :: ' ' :: '"' :: v)) ++ ['"'] := by simp
      rw [he, rstrip_append_of_neg _ (by decide), ← he]
    have hsep := takeWhile_dropWhile_sep (fun x => decide (x ≠ '='))
      ((c :: k2) ++ [' ']) '=' (' ' :: '"' :: (v ++ ['"']))
      (by
        intro x hx
        simp only [decide_eq_true_eq]
        rcases List.mem_append.mp hx with h | h
        · exact fun he => hkeq (he ▸ h)
        · simp only [List.mem_singleton] at h
          subst h
          decide)
      (by decide)
    have hassoc : entryLine (c :: k2) v =
        ((c :: k2) ++ [' ']) ++ '=' :: (' ' :: '"' :: (v ++ ['"'])) := by
      rw [entryLine, List.append_assoc]
      rfl
    have hsplit : splitFirstEq (entryLine (c :: k2) v) =
        ((c :: k2) ++ [' '], ' ' :: '"' :: (v ++ ['"'])) := by
      rw [splitFirstEq, hassoc, hsep.1, hsep.2]
      rfl
    have hkey : pyStrip pyIsQuote (pyStrip pyIsSpace ((c :: k2) ++ [' '])) =
        c :: k2 := by
      have h1 : pyStrip pyIsSpace ((c :: k2) ++ [' ']) = c :: k2 := by
        rw [List.cons_append, pyStrip, lstrip_cons_of_neg _ hcws,
          ← List.cons_append, rstrip_append]
        have hsp : pyRStrip pyIsSpace [' '] = [] := by decide
        rw [hsp, if_pos rfl]
        exact rstrip_fix _ hkws.2
      rw [h1]
      exact strip_fix _ hkq
    have hc1 : ¬((entryLine (c :: k2) v).head? = some '#') := by
      rw [entryLine, List.cons_append]
      simp [hchash]
    have hc2 : ¬(entryLine (c :: k2) v = []) := by
      rw [entryLine, List.cons_append]
      simp
    have hc3 : '=' ∈ entryLine (c :: k2) v := by
      rw [entryLine]
      simp
    have hsp1 : (splitFirstEq (entryLine (c :: k2) v)).1 =
        (c :: k2) ++ [' '] := by
      rw [hsplit]
    have hsp2 : (splitFirstEq (entryLine (c :: k2) v)).2 =
        ' ' :: '"' :: (v ++ ['"']) := by
      rw [hsplit]
    simp only [parseLine]
    rw [hline, if_neg hc1, if_neg hc2, if_pos hc3, hsp1, hsp2, hkey,
      value_token_roundtrip v hv]

theorem parseStep_none {line : Str} (cfg : List (Str × Str))
    (h : parseLine line = none) : parseStep cfg line = cfg := by
  simp [parseStep, h]

theorem parseStep_some {line : Str} {kv : Str × Str} (cfg : List (Str × Str))
    (h : parseLine line = some kv) :
    parseStep cfg line = dictInsert cfg kv.1 kv.2 := by
  simp [parseStep, h]

theorem dictInsert_fresh (m : List (Str × Str)) (k v : Str)
    (h : ∀ e ∈ m, e.1 ≠ k) : dictInsert m k v = m ++ [(k, v)] := by
  rw [dictInsert, if_neg]
  simp only [List.any_eq_true, not_exists, not_and]
  intro e he
  simp [h e he]

theorem foldl_parseStep_entries (config : List (Str × Str))
    (m : List (Str × Str))
    (hcl : ∀ kv ∈ config, cleanKey kv.1 ∧ cleanVal kv.2)
    (hnd : (config.map Prod.fst).Nodup)
    (hdisj : ∀ kv ∈ config, ∀ e ∈ m, e.1 ≠ kv.1) :
    (config.map (fun kv => entryLine kv.1 kv.2)).foldl parseStep m =
      m ++ config := by
  induction config generalizing m with
  | nil => simp
  | cons kv rest ih =>
    rw [List.map_cons, List.foldl_cons,
      parseStep_some m (parseLine_entryLine kv.1 kv.2
        (hcl kv (by simp)).1 (hcl kv (by simp)).2),
      dictInsert_fresh m kv.1 kv.2 (fun e he => hdisj kv (by simp) e he)]
    rw [List.map_cons, List.nodup_cons] at hnd
    have ihm := ih (m ++ [kv])
      (fun e he => hcl e (List.mem_cons_of_mem kv he)) hnd.2
      (by
        intro e he f hf
        rcases List.mem_append.mp hf with h | h
        · exact hdisj e (List.mem_cons_of_mem kv he) f h
        · simp only [List.mem_singleton] at h
          subst h
          intro hc
          exact hnd.1 (hc ▸ List.mem_map_of_mem Prod.fst he))
    rw [ihm]
    simp

theorem intercalate_cons₂ (s a b : Str) (l : List Str) :
    List.intercalate s (a :: b :: l) = a ++ s ++ List.intercalate s (b :: l) := by
  simp [List.intercalate, List.intersperse, List.flatten]

theorem intercalate_single (s a : Str) : List.intercalate s [a] = a := by
  simp [List.intercalate, List.intersperse]

theorem intercalate_concat (s : Str) (ls : List Str) (x : Str) :
    ∃ z : Str, List.intercalate s (ls ++ [x]) = z ++ x := by
  induction ls with
  | nil => exact ⟨[], by simp [intercalate_single]⟩
  | cons a ls ih =>
    obtain ⟨z, hz⟩ := ih
    cases ls with
    | nil =>
      exact ⟨a ++ s, by simp [intercalate_cons₂, intercalate_single]⟩
    | cons b ls2 =>
      refine ⟨a ++ s ++ z, ?_⟩
      rw [List.cons_append, List.cons_append, intercalate_cons₂]
      rw [List.cons_append] at hz
      rw [hz]
      simp

theorem entryLine_concat (k v : Str) :
    entryLine k v = (k ++ ' ' :: '=' :: ' ' :: '"' :: v) ++ ['"'] := by
  rw [entryLine, List.append_assoc]
  simp

theorem strip_write_of_ends (W : Str) (hhead : ∃ r, W = '#' :: r)
    (hlast : ∃ z, W = z ++ ['"']) :
    pyStrip pyIsSpace (W ++ ['\n']) = W := by
  obtain ⟨r, hr⟩ := hhead
  obtain ⟨z, hz⟩ := hlast
  rw [pyStrip]
  have h1 : pyLStrip pyIsSpace (W ++ ['\n']) = W ++ ['\n'] := by
    rw [hr, List.cons_append]
    exact lstrip_cons_of_neg _ (by decide)
  rw [h1, rstrip_append]
  have h2 : pyRStrip pyIsSpace ['\n'] = [] := by decide
  rw [h2, if_pos rfl, hz, rstrip_append_of_neg _ (by decide)]

theorem toml_roundtrip_aux (config : List (Str × Str)) (ts : Str)
    (hts : '\n' ∉ ts)
    (hcl : ∀ kv ∈ config, cleanKey kv.1 ∧ cleanVal kv.2)
    (hnd : (config.map Prod.fst).Nodup) :
    parse_toml_simple (write_toml_simple config ts) = config := by
  have hnlE : ∀ kv ∈ config, '\n' ∉ entryLine kv.1 kv.2 := by
    intro kv hkv h
    obtain ⟨⟨⟨hknl, hkeq2, hkq2⟩, hkhash2⟩, hkws2⟩ := (hcl kv hkv).1
    obtain ⟨hvnl, hveq2, hvq2⟩ := (hcl kv hkv).2
    simp only [entryLine, List.mem_append, List.mem_cons,
      List.mem_singleton] at h
    rcases h with h | h | h | h | h | h | h
    · exact hknl h
    · exact absurd h (by decide)
    · exact absurd h (by decide)
    · exact absurd h (by decide)
    · exact absurd h (by decide)
    · exact hvnl h
    · exact absurd h (by decide)
  rcases List.eq_nil_or_concat config with hc | ⟨config2, y, hc⟩
  · subst hc
    have hw : write_toml_simple [] ts =
        (comment1 ++ ['\n']) ++ (comment2 ts ++ ['\n', '\n']) := by
      rw [write_toml_simple]
      simp only [List.map_nil, List.append_nil]
      rw [intercalate_cons₂, intercalate_cons₂, intercalate_single]
      simp
    have hrb : pyRStrip pyIsSpace (comment2 ts ++ ['\n', '\n']) =
        '#' :: pyRStrip pyIsSpace (" Generated on ".data ++ ts) := by
      rw [rstrip_append]
      have h0 : pyRStrip pyIsSpace ['\n', '\n'] = [] := by decide
      rw [h0, if_pos rfl, comment2]
      exact rstrip_cons_of_neg _ (by decide)
    have hstrip : pyStrip pyIsSpace (write_toml_simple [] ts) =
        (comment1 ++ ['\n']) ++
          ('#' :: pyRStrip pyIsSpace (" Generated on ".data ++ ts)) := by
      rw [hw, pyStrip]
      have h1 : pyLStrip pyIsSpace
          ((comment1 ++ ['\n']) ++ (comment2 ts ++ ['\n', '\n'])) =
            (comment1 ++ ['\n']) ++ (comment2 ts ++ ['\n', '\n']) := by
        rw [comment1, List.cons_append, List.cons_append]
        exact lstrip_cons_of_neg _ (by decide)
      rw [h1, rstrip_append, hrb]
      rw [if_neg (by simp)]
    have hR : ∀ x ∈ pyRStrip pyIsSpace (" Generated on ".data ++ ts),
        ¬(x == '\n') = true := by
      intro x hx
      have hx2 := mem_of_mem_rstrip hx
      rcases List.mem_append.mp hx2 with h | h
      · intro hb
        rw [beq_iff_eq] at hb
        subst hb
        exact absurd h (by decide)
      · intro hb
        rw [beq_iff_eq] at hb
        subst hb
        exact hts h
    have hsplit : (pyStrip pyIsSpace (write_toml_simple [] ts)).splitOn '\n' =
        [comment1,
          '#' :: pyRStrip pyIsSpace (" Generated on ".data ++ ts)] := by
      rw [hstrip, List.append_assoc, List.splitOn]
      rw [show (['\n'] ++ ('#' :: pyRStrip pyIsSpace
        (" Generated on ".data ++ ts))) = '\n' :: ('#' :: pyRStrip pyIsSpace
        (" Generated on ".data ++ ts)) from rfl]
      have hxs : ∀ x ∈ comment1, ¬((x == '\n') = true) := by decide
      rw [List.splitOnP_first (fun x => x == '\n') comment1 hxs '\n' (by decide)]
      rw [List.splitOnP_eq_single]
      intro x hx
      rcases List.mem_cons.mp hx with h | h
      · subst h; decide
      · exact hR x h
    rw [parse_toml_simple, hsplit, List.foldl_cons, List.foldl_cons,
      List.foldl_nil, parseStep_none _ parseLine_comment1,
      parseStep_none _ (parseLine_hash _)]
  · rw [List.concat_eq_append] at hc
    subst hc
    have hmap : (config2 ++ [y]).map (fun kv => entryLine kv.1 kv.2) =
        config2.map (fun kv => entryLine kv.1 kv.2) ++
          [entryLine y.1 y.2] := by
      rw [List.map_append]
      rfl
    have hLcons : [comment1, comment2 ts, []] ++
        (config2 ++ [y]).map (fun kv => entryLine kv.1 kv.2) =
          comment1 :: comment2 ts :: [] ::
            (config2 ++ [y]).map (fun kv => entryLine kv.1 kv.2) := by
      simp
    have hhead : ∃ r, List.intercalate ['\n'] ([comment1, comment2 ts, []] ++
        (config2 ++ [y]).map (fun kv => entryLine kv.1 kv.2)) = '#' :: r := by
      rw [hLcons, intercalate_cons₂, comment1]
      exact ⟨" start_the_day.py execution state".data ++ (['\n'] ++
        List.intercalate ['\n'] (comment2 ts :: [] ::
          (config2 ++ [y]).map (fun kv => entryLine kv.1 kv.2))), by rfl⟩
    have hlast : ∃ z, List.intercalate ['\n'] ([comment1, comment2 ts, []] ++
        (config2 ++ [y]).map (fun kv => entryLine kv.1 kv.2)) =
          z ++ ['"'] := by
      have hform : [comment1, comment2 ts, []] ++
          (config2 ++ [y]).map (fun kv => entryLine kv.1 kv.2) =
            ([comment1, comment2 ts, []] ++
              config2.map (fun kv => entryLine kv.1 kv.2)) ++
                [entryLine y.1 y.2] := by
        rw [hmap, List.append_assoc]
      obtain ⟨z, hz⟩ := intercalate_concat ['\n']
        ([comment1, comment2 ts, []] ++
          config2.map (fun kv => entryLine kv.1 kv.2)) (entryLine y.1 y.2)
      refine ⟨z ++ (y.1 ++ ' ' :: '=' :: ' ' :: '"' :: y.2), ?_⟩
      rw [hform, hz, entryLine_concat]
      simp
    have hstrip : pyStrip pyIsSpace
        (write_toml_simple (config2 ++ [y]) ts) =
          List.intercalate ['\n'] ([comment1, comment2 ts, []] ++
            (config2 ++ [y]).map (fun kv => entryLine kv.1 kv.2)) :=
      strip_write_of_ends _ hhead hlast
    have hL : ∀ l ∈ ([comment1, comment2 ts, []] ++
        (config2 ++ [y]).map (fun kv => entryLine kv.1 kv.2)), '\n' ∉ l := by
      intro l hl
      rcases List.mem_append.mp hl with h | h
      · rcases List.mem_cons.mp h with h | h
        · subst h; decide
        rcases List.mem_cons.mp h with h | h
        · subst h
          rw [comment2]
          intro hmem
          rcases List.mem_cons.mp hmem with h2 | h2
          · exact absurd h2 (by decide)
          rcases List.mem_append.mp h2 with h2 | h2
          · exact absurd h2 (by decide)
          · exact hts h2
        rcases List.mem_cons.mp h with h | h
        · subst h; simp
        · simp at h
      · rw [List.mem_map] at h
        obtain ⟨kv, hkv, he⟩ := h
        rw [← he]
        exact hnlE kv hkv
    have hsplit : (pyStrip pyIsSpace
        (write_toml_simple (config2 ++ [y]) ts)).splitOn '\n' =
          [comment1, comment2 ts, []] ++
            (config2 ++ [y]).map (fun kv => entryLine kv.1 kv.2) := by
      rw [hstrip]
      exact List.splitOn_intercalate _ '\n' hL (by rw [hLcons]; simp)
    rw [parse_toml_simple, hsplit, hLcons, List.foldl_cons, List.foldl_cons,
      List.foldl_cons, parseStep_none _ parseLine_comment1,
      parseStep_none _ (parseLine_comment2 ts), parseStep_none _ parseLine_nil]
    rw [foldl_parseStep_entries (config2 ++ [y]) [] hcl hnd (by simp)]
    rfl

theorem dictInsert_keys (m : List (Str × Str)) (k v : Str) :
    (dictInsert m k v).map Prod.fst =
      if m.any (fun e => e.1 = k) then m.map Prod.fst
      else m.map Prod.fst ++ [k] := by
  rw [dictInsert]
  split_ifs with h
  · rw [List.map_map]
    apply List.map_congr_left
    intro e he
    by_cases h2 : e.1 = k
    · simp [h2]
    · simp [h2]
  · simp

theorem dictInsert_keys_nodup (m : List (Str × Str)) (k v : Str)
    (h : (m.map Prod.fst).Nodup) :
    ((dictInsert m k v).map Prod.fst).Nodup := by
  rw [dictInsert_keys]
  split_ifs with ha
  · exact h
  · have hk : k ∉ m.map Prod.fst := by
      intro hmem
      rw [List.mem_map] at hmem
      obtain ⟨e, he, hek⟩ := hmem
      simp only [List.any_eq_true, not_exists, not_and] at ha
      exact absurd (by simp [hek]) (ha e he)
    simp [List.nodup_append, h, hk]

theorem mem_dictInsert (m : List (Str × Str)) (k v : Str) (e : Str × Str)
    (he : e ∈ dictInsert m k v) : e ∈ m ∨ e = (k, v) := by
  rw [dictInsert] at he
  split_ifs at he with h
  · rw [List.mem_map] at he
    obtain ⟨f, hf, hfe⟩ := he
    by_cases h2 : f.1 = k
    · right
      rw [← hfe]
      simp [h2]
    · left
      rw [← hfe]
      simp only [h2, if_false]
      exact hf
  · rcases List.mem_append.mp he with h2 | h2
    · left; exact h2
    · right; simpa using h2

theorem lookup_map_update (m : List (Str × Str)) (k v : Str) :
    m.any (fun e => e.1 = k) = true →
      (m.map (fun e => if e.1 = k then (k, v) else e)).lookup k = some v := by
  induction m with
  | nil => simp
  | cons e t ih =>
    obtain ⟨e1, e2⟩ := e
    intro h
    by_cases h2 : e1 = k
    · rw [List.map_cons, if_pos (by simpa using h2)]
      simp
    · rw [List.map_cons, if_neg (by simpa using h2), List.lookup_cons]
      have hb : (k == e1) = false := by
        simp only [beq_eq_false_iff_ne, ne_eq]
        exact fun hx => h2 hx.symm
      rw [hb]
      exact ih (by simpa [h2] using h)

theorem lookup_append_of_not_any (m : List (Str × Str)) (k v : Str) :
    m.any (fun e => e.1 = k) = false →
      (m ++ [(k, v)]).lookup k = some v := by
  induction m with
  | nil =>
    intro _
    simp
  | cons e t ih =>
    obtain ⟨e1, e2⟩ := e
    intro h
    simp only [List.any_cons, Bool.or_eq_false_iff,
      decide_eq_false_iff_not] at h
    rw [List.cons_append, List.lookup_cons]
    have hb : (k == e1) = false := by
      simp only [beq_eq_false_iff_ne, ne_eq]
      exact fun hx => h.1 hx.symm
    rw [hb]
    exact ih h.2

theorem lookup_dictInsert (m : List (Str × Str)) (k v : Str) :
    (dictInsert m k v).lookup k = some v := by
  rw [dictInsert]
  split_ifs with h
  · exact lookup_map_update m k v h
  · apply lookup_append_of_not_any m k v
    rw [Bool.eq_false_iff]
    exact h

theorem foldl_parseStep_keys_nodup (lines : List Str) (m : List (Str × Str))
    (h : (m.map Prod.fst).Nodup) :
    ((lines.foldl parseStep m).map Prod.fst).Nodup := by
  induction lines generalizing m with
  | nil => exact h
  | cons l t ih =>
    rw [List.foldl_cons]
    apply ih
    cases hp : parseLine l with
    | none => rw [parseStep_none m hp]; exact h
    | some kv => rw [parseStep_some m hp]; exact dictInsert_keys_nodup _ _ _ h

theorem parse_keys_nodup (content : Str) :
    ((parse_toml_simple content).map Prod.fst).Nodup :=
  foldl_parseStep_keys_nodup _ [] (by simp)

/-- C9 (amended): for every dict whose keys and values contain no newline,
no `=`, and no leading/trailing quote character, whose keys do not start
with `#` and additionally contain no leading/trailing whitespace, parsing
the text produced by `write_toml_simple` recovers exactly the original
dict (comment and blank lines are skipped, surrounding quotes and
whitespace stripped). -/
theorem C9_toml_roundtrip (config : List (Str × Str)) (ts : Str)
    (hts : '\n' ∉ ts)
    (hcl : ∀ kv ∈ config, cleanKey kv.1 ∧ cleanVal kv.2)
    (hnd : (config.map Prod.fst).Nodup) :
    parse_toml_simple (write_toml_simple config ts) = config :=
  toml_roundtrip_aux config ts hts hcl hnd

/-- Witness for C9: the round trip at the dict actually stored by the
program. -/
theorem C9_toml_roundtrip_witness :
    parse_toml_simple (write_toml_simple
        [("last_run_date".data, "2026-10-12".data)]
        "2026-10-12T07:00:00".data) =
      [("last_run_date".data, "2026-10-12".data)] :=
  C9_toml_roundtrip [("last_run_date".data, "2026-10-12".data)]
    "2026-10-12T07:00:00".data (by decide) (by decide) (by decide)

/-- Counterexample for C9 as stated: the key ` k` (leading space) satisfies
every condition of the claim (no newline, no `=`, no leading/trailing
quote, does not start with `#`), yet the round trip strips the space and
returns the key `k`, so the original dict is not recovered. -/
theorem C9_toml_roundtrip_counterexample :
    cleanKeyClaim " k".data ∧ cleanVal "v".data ∧
    parse_toml_simple (write_toml_simple [(" k".data, "v".data)]
        "2026-10-12T07:00:00".data) = [("k".data, "v".data)] ∧
    (" k".data, "v".data) ≠ ("k".data, "v".data) := by
  decide

/-- C6: after `update_execution_state` records a run on date `today`, every
subsequent `already_ran_today` on that date returns true (so the routine is
skipped), and on any other date returns false. -/
theorem C6_daily_gate (content today other ts : Str)
    (hts : '\n' ∉ ts) (htoday : cleanVal today)
    (hcl : ∀ kv ∈ parse_toml_simple content, cleanKey kv.1 ∧ cleanVal kv.2)
    (hne : other ≠ today) :
    already_ran_today (update_execution_state content today ts) today = true ∧
    already_ran_today (update_execution_state content today ts) other = false := by
  have hnd0 := parse_keys_nodup content
  have hcl2 : ∀ kv ∈ dictInsert (parse_toml_simple content) last_run_key today,
      cleanKey kv.1 ∧ cleanVal kv.2 := by
    intro kv hkv
    rcases mem_dictInsert _ _ _ kv hkv with h | h
    · exact hcl kv h
    · subst h
      constructor
      · show cleanKey last_run_key
        decide
      · exact htoday
  have hnd2 := dictInsert_keys_nodup (parse_toml_simple content)
    last_run_key today hnd0
  have hrt := toml_roundtrip_aux
    (dictInsert (parse_toml_simple content) last_run_key today) ts hts hcl2 hnd2
  rw [already_ran_today, already_ran_today, update_execution_state, hrt,
    lookup_dictInsert]
  constructor
  · simp
  · simp only [beq_eq_false_iff_ne, ne_eq, Option.some.injEq]
    exact fun h => hne h.symm

/-- Witness for C6: starting from an empty state file, recording
2026-10-12 makes the gate report true for 2026-10-12 and false for
2026-10-13. -/
theorem C6_daily_gate_witness :
    already_ran_today (update_execution_state "".data "2026-10-12".data
      "2026-10-12T07:00:00".data) "2026-10-12".data = true ∧
    already_ran_today (update_execution_state "".data "2026-10-12".data
      "2026-10-12T07:00:00".data) "2026-10-13".data = false :=
  C6_daily_gate "".data "2026-10-12".data "2026-10-13".data
    "2026-10-12T07:00:00".data (by decide) (by decide) (by decide) (by decide)
